import Mathlib

/-!
A formal model of the VanderVeg menu scraper (src/menu.py).

Strings are modelled as lists of characters (`Str`).  Python's regular
expressions are compiled to deterministic matching functions: for each of the
patterns appearing in the source the greedy quantifiers are forced (the
character class of every quantified atom is disjoint from the character that
must follow it), so backtracking never changes the outcome and the matcher
below computes exactly the regex-engine result.  Python's `\w`, `\s` and
`str.lower` are modelled over their ASCII behaviour, which covers every
character class decision the menu texts exercise.
-/

namespace Vveg

/-- Strings are lists of characters. -/
abbrev Str := List Char

/-- Embed a Lean string literal into the model. -/
def str (s : String) : Str := s.data

/-- A menu is an insertion-ordered map from day label to (soup, main dish),
modelling the Python dict. -/
abbrev Menu := List (Str × Str × Str)

/-- Python whitespace test (`\s`, `str.strip`), ASCII fragment. -/
def isSpaceChar (c : Char) : Bool := c.isWhitespace

/-- Python `\w` (word character), ASCII fragment: letters, digits, underscore. -/
def isWordChar (c : Char) : Bool := c.isAlphanum || c == '_'

/-- `listStartsWith needle hay` is Python `hay.startswith(needle)`. -/
def listStartsWith : Str → Str → Bool
  | [], _ => true
  | _ :: _, [] => false
  | a :: as, b :: bs => a == b && listStartsWith as bs

/-- `containsSub needle hay` is Python `needle in hay` (substring test). -/
def containsSub (needle : Str) : Str → Bool
  | [] => listStartsWith needle []
  | c :: rest => listStartsWith needle (c :: rest) || containsSub needle rest

/-- `listEndsWith needle hay` is Python `hay.endswith(needle)`. -/
def listEndsWith (needle hay : Str) : Bool :=
  listStartsWith needle.reverse hay.reverse

/-- Python `str.lower`, ASCII fragment. -/
def lowerStr (s : Str) : Str := s.map Char.toLower

/-- Python `str.strip()`: remove leading and trailing whitespace. -/
def stripStr (s : Str) : Str :=
  ((s.dropWhile isSpaceChar).reverse.dropWhile isSpaceChar).reverse

/-- Helper for `splitLines`: accumulates the current line (reversed). -/
def splitLinesAux : Str → Str → List Str
  | [], acc => [acc.reverse]
  | '\r' :: '\n' :: rest, acc => acc.reverse :: splitLinesAux rest []
  | '\n' :: rest, acc => acc.reverse :: splitLinesAux rest []
  | '\r' :: rest, acc => acc.reverse :: splitLinesAux rest []
  | c :: rest, acc => splitLinesAux rest (c :: acc)

/-- Python `str.splitlines` over the newline conventions `\n`, `\r\n`, `\r`.
Unlike Python this yields one trailing empty line for a terminated or empty
input, but `clean_menu_text` filters empty lines away, so the composition
agrees with the source. -/
def splitLines (s : Str) : List Str := splitLinesAux s []

/-- The four logo misreadings of `JUNK_LINES` (src/menu.py line 31). -/
def junkList : List Str :=
  [str (r"vanderveg"), str (r"vanderueg"), str (r"uanderueg"), str (r"uanderveg")]

/-- The junk test of the cleaning loop (src/menu.py line 139): some
`JUNK_LINES` member occurs in the lowercased line, or the line starts with
the literal marker. -/
def isJunkLine (line : Str) : Bool :=
  junkList.any (fun j => containsSub j (lowerStr line)) ||
    listStartsWith (str (r"ALERGENI")) line

/-- `DAY_PATTERN.match line` for `^(\w+),\s*(\d{1,2})\.(\d{1,2})`
(src/menu.py line 29).  The greedy runs are forced: a word-character run must
be followed by the comma, the whitespace run by a digit, the day-digit run by
the dot, and the month group takes at most two digits of the following digit
run.  Returns the three captured groups. -/
def dayMatch (line : Str) : Option (Str × Str × Str) :=
  match line.takeWhile isWordChar, line.dropWhile isWordChar with
  | [], _ => none
  | w, ',' :: r2 =>
      let r3 := r2.dropWhile isSpaceChar
      let ds := r3.takeWhile Char.isDigit
      if 1 ≤ ds.length ∧ ds.length ≤ 2 then
        match r3.dropWhile Char.isDigit with
        | '.' :: r5 =>
            let ms := (r5.takeWhile Char.isDigit).take 2
            if ms = [] then none else some (w, ds, ms)
        | _ => none
      else none
  | _, _ => none

/-- The day label built at src/menu.py line 149, the f-string
interpolating name, day and month. -/
def dayLabel (w d m : Str) : Str :=
  w ++ str (r", ") ++ d ++ str (r". ") ++ m ++ str (r".")

/-- Membership of `ALLERGEN_PATTERN`'s tail `\d*(?:,\d+)*\s*` (when
`inDigits` is true, i.e. at least one digit of the current group was read)
respectively `\d+(?:,\d+)*\s*` (when `inDigits` is false, i.e. right after a
comma), read over the whole of the remaining characters.  A deterministic
matcher: a digit extends the current group, a comma opens a group that must
start with a digit, anything else may only be trailing whitespace. -/
def allergenTail : Bool → Str → Bool
  | inDigits, [] => inDigits
  | inDigits, c :: r =>
      if c.isDigit then allergenTail true r
      else if inDigits then
        (if c = ',' then allergenTail false r
         else isSpaceChar c && r.all isSpaceChar)
      else false

/-- `s` matched in full by `ALLERGEN_PATTERN = \s*\d+(?:,\d+)*\s*$`
(src/menu.py line 30): optional whitespace, a digit group, further
comma-separated digit groups, optional trailing whitespace. -/
def isAllergenRun (s : Str) : Bool :=
  match s.dropWhile isSpaceChar with
  | c :: r => if c.isDigit then allergenTail true r else false
  | [] => false

/-- Scan the positions `i, i+1, ...` (at most `fuel` of them) for the first
whose suffix `line.drop i` is an allergen run — the leftmost-match search of
`re.sub`. -/
def findAllergenFrom (line : Str) : Nat → Nat → Option Nat
  | 0, _ => none
  | fuel + 1, i =>
      if isAllergenRun (line.drop i) then some i
      else findAllergenFrom line fuel (i + 1)

/-- `ALLERGEN_PATTERN.sub("", line)` (src/menu.py line 151): the pattern is
anchored at line end, so the leftmost match is the longest suffix matching
the pattern, and substitution truncates the line there; a line with no such
suffix is unchanged. -/
def stripAllergen (line : Str) : Str :=
  match findAllergenFrom line (line.length + 1) 0 with
  | some i => line.take i
  | none => line

/-- Python `" ,".replace` step of the flush: `main.replace(" ,", ",")`,
left-to-right, non-overlapping. -/
def replaceSpaceComma : Str → Str
  | [] => []
  | ' ' :: ',' :: rest => ',' :: replaceSpaceComma rest
  | c :: rest => c :: replaceSpaceComma rest

/-- The dict write `menu[current_day] = [soup, main]`: update in place when
the key exists (keeping its position, as a Python dict does), append
otherwise. -/
def insertMenu (menu : Menu) (k : Str) (v : Str × Str) : Menu :=
  if menu.any (fun p => decide (p.1 = k)) then
    menu.map (fun p => if p.1 = k then (k, v) else p)
  else menu ++ [(k, v)]

/-- The entry built inside `process_buffer` (src/menu.py lines 130-131):
soup is the first buffered line, the main dish joins the rest with spaces,
strips, and collapses a stray space-comma. -/
def mkEntry (buffer : List Str) : Str × Str :=
  (match buffer with
   | [] => []
   | s :: _ => s,
   if 1 < buffer.length then
     replaceSpaceComma (stripStr (List.intercalate [' '] (buffer.drop 1)))
   else [])

/-- `process_buffer` (src/menu.py lines 126-133): with a current day and a
nonempty buffer, write the entry; otherwise leave the menu alone.  (The
caller clears the buffer.) -/
def process_buffer (menu : Menu) (current : Option Str) (buffer : List Str) : Menu :=
  match current with
  | some d => if buffer = [] then menu else insertMenu menu d (mkEntry buffer)
  | none => menu

/-- The loop state of `clean_menu_text`: the menu built so far, the current
day label, and the buffered content lines. -/
structure NormState where
  menu : Menu
  currentDay : Option Str
  buffer : List Str
deriving DecidableEq

/-- One iteration of the `for line in lines` loop of `clean_menu_text`
(src/menu.py lines 135-153). -/
def cleanStep (st : NormState) (line : Str) : NormState :=
  if isJunkLine line then st
  else
    match dayMatch line with
    | some (w, d, m) =>
        { menu := process_buffer st.menu st.currentDay st.buffer,
          currentDay := some (dayLabel w d m),
          buffer := [] }
    | none =>
        let cl := stripAllergen line
        if cl = [] then st else { st with buffer := st.buffer ++ [cl] }

/-- The initial loop state: empty menu, no current day, empty buffer. -/
def initState : NormState := ⟨[], none, []⟩

/-- The final flush of the loop (src/menu.py line 156). -/
def flushMenu (st : NormState) : Menu :=
  process_buffer st.menu st.currentDay st.buffer

/-- Run the cleaning loop over a list of (already preprocessed) lines and
perform the final flush. -/
def cleanLines (lines : List Str) : Menu :=
  flushMenu (lines.foldl cleanStep initState)

/-- The line preprocessing of src/menu.py line 121:
split into lines, strip each, drop the empty ones. -/
def preprocess (raw : Str) : List Str :=
  ((splitLines raw).map stripStr).filter (fun l => l ≠ [])

/-- `clean_menu_text` (src/menu.py lines 110-157). -/
def clean_menu_text (raw : Str) : Menu :=
  cleanLines (preprocess raw)

/-- Join lines with a newline, for building raw OCR inputs. -/
def joinNl (ls : List Str) : Str := List.intercalate ['\n'] ls

/-- The currency-amount group `(\d+[,\.]\d+€)` of the price patterns
(src/menu.py lines 32-33), matched at the start of `s`; greedy digit runs
are forced because a digit can be neither the separator nor the euro sign.
Returns the captured group. -/
def amountAt (s : Str) : Option Str :=
  if s.takeWhile Char.isDigit = [] then none
  else
    match s.dropWhile Char.isDigit with
    | c :: r2 =>
        if c = ',' ∨ c = '.' then
          if r2.takeWhile Char.isDigit = [] then none
          else
            match r2.dropWhile Char.isDigit with
            | e :: _ =>
                if e = '€' then
                  some (s.takeWhile Char.isDigit ++
                    c :: (r2.takeWhile Char.isDigit ++ ['€']))
                else none
            | [] => none
        else none
    | [] => none

/-- Try the price pattern `<phrase>\s*(\d+[,\.]\d+€)` at the start of `s`:
the literal phrase, optional whitespace, then the amount group. -/
def priceMatchAt (phrase : Str) (s : Str) : Option Str :=
  if listStartsWith phrase s then
    amountAt ((s.drop phrase.length).dropWhile isSpaceChar)
  else none

/-- `pattern.search(text)` for a price pattern: try the pattern at each
position, leftmost first, returning the captured amount. -/
def searchPrice (phrase : Str) : Str → Option Str
  | [] => priceMatchAt phrase []
  | c :: rest =>
      match priceMatchAt phrase (c :: rest) with
      | some g => some g
      | none => searchPrice phrase rest

/-- The label phrase of `SOUP_PRICE_PATTERN` (src/menu.py line 32). -/
def soupPhrase : Str := str (r"Dnevna juha:")

/-- The label phrase of `MAIN_DISH_PRICE_PATTERN` (src/menu.py line 33). -/
def mainPhrase : Str := str (r"Dnevna glavna jed:")

/-- The searching step of `get_prices` (src/menu.py lines 174-180), applied
to the homepage plain text: search each price pattern, returning the group
when matched and the absent marker otherwise. -/
def get_prices_from_text (text : Str) : Option Str × Option Str :=
  (searchPrice soupPhrase text, searchPrice mainPhrase text)

/-- The qualification test of the Locator loop (src/menu.py line 58):
the lowercased source contains the menu-indicating substring and ends in a
JPEG extension. -/
def menuImgQualifies (src : Str) : Bool :=
  containsSub (str (r"meni")) (lowerStr src) &&
    (listEndsWith (str (r".jpg")) (lowerStr src) ||
      listEndsWith (str (r".jpeg")) (lowerStr src))

/-- `HOMEPAGE_URL` (src/menu.py line 26). -/
def homepageUrl : Str := str (r"https://vanderveg.si")

/-- The resolution step of the Locator (src/menu.py lines 59-62): an
absolute URL is returned as is, a path starting with a slash is joined to
the homepage origin directly, a bare relative path with an inserted slash. -/
def resolveUrl (src : Str) : Str :=
  if listStartsWith (str (r"http")) src then src
  else homepageUrl ++ (if listStartsWith (str (r"/")) src then src else '/' :: src)

/-- The not-found error message (src/menu.py line 64). -/
def menuNotFoundMsg : Str := str (r"Menu image not found on homepage.")

/-- The selection loop of `get_latest_menu_image_url` (src/menu.py lines
53-64), over the image source attributes in document order; a missing
attribute defaults to the empty string (`img.get("src", "")`). -/
def get_latest_menu_image_url : List (Option Str) → Except Str Str
  | [] => Except.error menuNotFoundMsg
  | img :: rest =>
      let src := img.getD []
      if menuImgQualifies src then Except.ok (resolveUrl src)
      else get_latest_menu_image_url rest

/-- Modelled from the spec: "select the first whose source attribute
(case-insensitively) contains a menu-indicating substring and ends in a JPEG
extension; if the selected source is not already an absolute URL, resolve it
against the homepage origin; fails with a not-found error if no qualifying
image exists" — stated declaratively with `List.find?`, to be compared with
the loop above. -/
def menuImageUrlSpec (imgs : List (Option Str)) : Except Str Str :=
  match (imgs.map (fun o => o.getD [])).find? menuImgQualifies with
  | some src => Except.ok (resolveUrl src)
  | none => Except.error menuNotFoundMsg

/-- Checked list indexing: `l[i]`, raising `IndexError` past the end, for
the exception-aware model of the Normalizer. -/
def listIdx (l : List Str) (i : Nat) : Except Str Str :=
  match l.drop i with
  | [] => Except.error (str (r"IndexError: list index out of range"))
  | x :: _ => Except.ok x

/-- Exception-aware `process_buffer`: the single indexing operation
`buffer[0]` is checked, guarded exactly as in the source
(`buffer[0] if buffer else ''` under `if current_day and buffer`). -/
def processBufferE (menu : Menu) (current : Option Str) (buffer : List Str) :
    Except Str Menu :=
  match current with
  | some d =>
      if buffer = [] then Except.ok menu
      else do
        let soup ← if buffer = [] then Except.ok [] else listIdx buffer 0
        let main :=
          if 1 < buffer.length then
            replaceSpaceComma (stripStr (List.intercalate [' '] (buffer.drop 1)))
          else []
        Except.ok (insertMenu menu d (soup, main))
  | none => Except.ok menu

/-- Exception-aware loop body of `clean_menu_text`. -/
def cleanStepE (st : NormState) (line : Str) : Except Str NormState :=
  if isJunkLine line then Except.ok st
  else
    match dayMatch line with
    | some (w, d, m) => do
        let menu2 ← processBufferE st.menu st.currentDay st.buffer
        Except.ok ⟨menu2, some (dayLabel w d m), []⟩
    | none =>
        let cl := stripAllergen line
        if cl = [] then Except.ok st
        else Except.ok { st with buffer := st.buffer ++ [cl] }

/-- Exception-aware folding of the cleaning loop. -/
def foldStepsE : NormState → List Str → Except Str NormState
  | st, [] => Except.ok st
  | st, l :: ls => do
      let st2 ← cleanStepE st l
      foldStepsE st2 ls

/-- Exception-aware `clean_menu_text`: every operation of the source that
can raise in Python is modelled in the `Except` monad. -/
def cleanMenuTextE (raw : Str) : Except Str Menu := do
  let st ← foldStepsE initState (preprocess raw)
  processBufferE st.menu st.currentDay st.buffer

/-- The order shadow of the cleaning loop: which day labels have received
an entry, in first-insertion order, together with the current day and
whether the buffer holds anything. -/
structure SState where
  keys : List Str
  current : Option Str
  hasBuf : Bool
deriving DecidableEq

/-- Key insertion: a label enters the key list when first inserted and keeps
that position ever after (Python dict semantics). -/
def insertKey (keys : List Str) (k : Str) : List Str :=
  if k ∈ keys then keys else keys ++ [k]

/-- The flush, on the shadow: a current day with buffered content inserts
its label. -/
def flushKeys (s : SState) : List Str :=
  match s.current with
  | some d => if s.hasBuf then insertKey s.keys d else s.keys
  | none => s.keys

/-- The loop body, on the shadow. -/
def shadowStep (s : SState) (line : Str) : SState :=
  if isJunkLine line then s
  else
    match dayMatch line with
    | some (w, d, m) => ⟨flushKeys s, some (dayLabel w d m), false⟩
    | none => if stripAllergen line = [] then s else { s with hasBuf := true }

/-- The day labels of the output in first-insertion order: the label order
the cleaning loop realizes. -/
def shadowKeys (lines : List Str) : List Str :=
  flushKeys (lines.foldl shadowStep ⟨[], none, false⟩)

/-- Modelled from the spec: "the order in which each day label first appears
in the input line order" — the day labels of all header lines surviving the
junk filter, in input order, keeping the first occurrence of each.  Used to
compare the claimed iteration order with the realized one. -/
def firstAppearanceKeys (lines : List Str) : List Str :=
  (lines.filter (fun l => !isJunkLine l)).foldl
    (fun acc l =>
      match dayMatch l with
      | some (w, d, m) => insertKey acc (dayLabel w d m)
      | none => acc) []

/-- The shape of a currency amount matched by the price patterns: a digit
group, a comma or dot, a digit group, the euro sign. -/
def priceShape (g : Str) : Prop :=
  ∃ d1 c d2, d1 ≠ [] ∧ d1.all Char.isDigit = true ∧ (c = ',' ∨ c = '.') ∧
    d2 ≠ [] ∧ d2.all Char.isDigit = true ∧ g = d1 ++ c :: (d2 ++ ['€'])

/-! ## Helper lemmas -/

/-- A junk line leaves the loop state untouched. -/
theorem cleanStep_of_junk (st : NormState) (line : Str) (h : isJunkLine line = true) :
    cleanStep st line = st := by
  simp [cleanStep, h]

/-- `takeWhile` only keeps elements satisfying the predicate. -/
theorem takeWhile_all (p : Char → Bool) : ∀ l : Str, (l.takeWhile p).all p = true
  | [] => rfl
  | c :: rest => by
      by_cases h : p c
      · simp [List.takeWhile_cons_of_pos h, h, takeWhile_all p rest]
      · simp [List.takeWhile_cons_of_neg h]

/-- The empty suffix is not an allergen run (the pattern needs a digit). -/
theorem isAllergenRun_nil : isAllergenRun [] = false := rfl

/-- If no position carries an allergen run, the scan finds nothing. -/
theorem findAllergenFrom_eq_none (line : Str)
    (h : ∀ j, isAllergenRun (line.drop j) = false) :
    ∀ fuel i, findAllergenFrom line fuel i = none
  | 0, _ => rfl
  | fuel + 1, i => by
      simp only [findAllergenFrom, h i, Bool.false_eq_true, if_false]
      exact findAllergenFrom_eq_none line h fuel (i + 1)

/-- The scan started at `i0` finds a position no later than any position
`i ≥ i0` within reach that carries an allergen run, and the found position
carries one. -/
theorem findAllergenFrom_le (line : Str) :
    ∀ fuel i0 i, i0 ≤ i → i < i0 + fuel → isAllergenRun (line.drop i) = true →
      ∃ j, j ≤ i ∧ findAllergenFrom line fuel i0 = some j ∧
        isAllergenRun (line.drop j) = true
  | 0, i0, i, h0, hlt, _ => absurd hlt (by omega)
  | fuel + 1, i0, i, h0, hlt, hp => by
      by_cases hq : isAllergenRun (line.drop i0) = true
      · exact ⟨i0, h0, by simp [findAllergenFrom, hq], hq⟩
      · have hne : i0 ≠ i := fun he => hq (he ▸ hp)
        have h1 : i0 + 1 ≤ i := by omega
        obtain ⟨j, hj1, hj2, hj3⟩ :=
          findAllergenFrom_le line fuel (i0 + 1) i h1 (by omega) hp
        exact ⟨j, hj1, by simp [findAllergenFrom, hq, hj2], hj3⟩

/-- The dict write changes the key list exactly as `insertKey` does: an
existing key keeps its position, a new key is appended. -/
theorem insertMenu_keys (m : Menu) (k : Str) (v : Str × Str) :
    (insertMenu m k v).map Prod.fst = insertKey (m.map Prod.fst) k := by
  unfold insertMenu insertKey
  by_cases h : k ∈ m.map Prod.fst
  · have ha : m.any (fun p => decide (p.1 = k)) = true := by
      rw [List.any_eq_true]
      obtain ⟨p, hp, he⟩ := List.mem_map.1 h
      exact ⟨p, hp, by simp [he]⟩
    rw [if_pos ha, if_pos h, List.map_map]
    apply List.map_congr_left
    intro p _
    by_cases hpk : p.1 = k
    · simp [hpk]
    · simp [hpk]
  · have ha : ¬ (m.any (fun p => decide (p.1 = k)) = true) := by
      rw [List.any_eq_true]
      rintro ⟨p, hp, he⟩
      exact h (List.mem_map.2 ⟨p, hp, by simpa using he⟩)
    rw [if_neg ha, if_neg h, List.map_append]
    rfl

/-- The flush changes the key list exactly as the shadow flush does. -/
theorem process_buffer_keys (m : Menu) (cur : Option Str) (buf : List Str)
    (hb : Bool) (hbuf : buf = [] ↔ hb = false) :
    (process_buffer m cur buf).map Prod.fst =
      flushKeys ⟨m.map Prod.fst, cur, hb⟩ := by
  unfold process_buffer flushKeys
  cases cur with
  | none => rfl
  | some d =>
      by_cases h : buf = []
      · have hb0 : hb = false := hbuf.1 h
        simp [h, hb0]
      · have hb1 : hb = true := by
          cases hhb : hb
          · exact absurd (hbuf.2 hhb) h
          · rfl
        simp [h, hb1, insertMenu_keys]

/-- One loop step preserves the simulation between the full state and its
order shadow. -/
theorem cleanStep_sim (st : NormState) (s : SState) (line : Str)
    (h1 : st.menu.map Prod.fst = s.keys) (h2 : st.currentDay = s.current)
    (h3 : st.buffer = [] ↔ s.hasBuf = false) :
    (cleanStep st line).menu.map Prod.fst = (shadowStep s line).keys ∧
    (cleanStep st line).currentDay = (shadowStep s line).current ∧
    ((cleanStep st line).buffer = [] ↔ (shadowStep s line).hasBuf = false) := by
  unfold cleanStep shadowStep
  by_cases hj : isJunkLine line
  · simp only [hj, if_true]
    exact ⟨h1, h2, h3⟩
  · simp only [hj, Bool.false_eq_true, if_false]
    cases hd : dayMatch line with
    | some g =>
        obtain ⟨w, d, m⟩ := g
        refine ⟨?_, rfl, by simp⟩
        show (process_buffer st.menu st.currentDay st.buffer).map Prod.fst = flushKeys s
        rw [process_buffer_keys st.menu st.currentDay st.buffer s.hasBuf h3, h1, h2]
    | none =>
        by_cases hc : stripAllergen line = []
        · simp only [hc, if_true]
          exact ⟨h1, h2, h3⟩
        · simp only [hc, Bool.false_eq_true, if_false]
          refine ⟨h1, h2, ?_⟩
          simp

/-- The folded loop preserves the simulation. -/
theorem fold_sim : ∀ (lines : List Str) (st : NormState) (s : SState),
    st.menu.map Prod.fst = s.keys → st.currentDay = s.current →
    (st.buffer = [] ↔ s.hasBuf = false) →
    ((lines.foldl cleanStep st).menu.map Prod.fst =
        (lines.foldl shadowStep s).keys ∧
      (lines.foldl cleanStep st).currentDay = (lines.foldl shadowStep s).current ∧
      ((lines.foldl cleanStep st).buffer = [] ↔
        (lines.foldl shadowStep s).hasBuf = false))
  | [], _, _, h1, h2, h3 => ⟨h1, h2, h3⟩
  | l :: ls, st, s, h1, h2, h3 => by
      obtain ⟨g1, g2, g3⟩ := cleanStep_sim st s l h1 h2 h3
      simpa using fold_sim ls (cleanStep st l) (shadowStep s l) g1 g2 g3

/-- Key insertion keeps the key list duplicate-free. -/
theorem insertKey_nodup (keys : List Str) (k : Str) (h : keys.Nodup) :
    (insertKey keys k).Nodup := by
  unfold insertKey
  by_cases hk : k ∈ keys
  · simpa [hk] using h
  · rw [if_neg hk, List.nodup_append]
    refine ⟨h, List.nodup_singleton k, fun a ha hb => ?_⟩
    rw [List.mem_singleton] at hb
    exact hk (hb ▸ ha)

/-- The shadow flush keeps the key list duplicate-free. -/
theorem flushKeys_nodup (s : SState) (h : s.keys.Nodup) : (flushKeys s).Nodup := by
  unfold flushKeys
  cases s.current with
  | none => exact h
  | some d =>
      dsimp only
      split
      · exact insertKey_nodup _ _ h
      · exact h

/-- A shadow step keeps the key list duplicate-free. -/
theorem shadowStep_keys_nodup (s : SState) (line : Str) (h : s.keys.Nodup) :
    (shadowStep s line).keys.Nodup := by
  unfold shadowStep
  by_cases hj : isJunkLine line
  · simpa [hj] using h
  · simp only [hj, Bool.false_eq_true, if_false]
    cases hd : dayMatch line with
    | some g =>
        obtain ⟨w, d, m⟩ := g
        exact flushKeys_nodup s h
    | none =>
        by_cases hc : stripAllergen line = []
        · simpa [hc] using h
        · simpa [hc] using h

/-- The folded shadow keeps the key list duplicate-free. -/
theorem fold_shadow_nodup : ∀ (lines : List Str) (s : SState), s.keys.Nodup →
    ((lines.foldl shadowStep s)).keys.Nodup
  | [], _, h => h
  | l :: ls, s, h => fold_shadow_nodup ls _ (shadowStep_keys_nodup s l h)

/-! ## Claims -/

/-- C1: For the raw OCR text consisting of the lines "VanderVeg",
"Ponedeljek, 2.6.", "Goveja obara 1,2", "Pisana zelenjava z rizom 3,6,9",
"ALERGENI: 1 gluten..." (joined by newlines), `clean_menu_text` returns
exactly the one-entry mapping from "Ponedeljek, 2. 6." to
["Goveja obara", "Pisana zelenjava z rizom"]. -/
theorem c1_end_to_end :
    clean_menu_text (joinNl [str (r"VanderVeg"), str (r"Ponedeljek, 2.6."),
        str (r"Goveja obara 1,2"), str (r"Pisana zelenjava z rizom 3,6,9"),
        str (r"ALERGENI: 1 gluten...")]) =
      [(str (r"Ponedeljek, 2. 6."),
        str (r"Goveja obara"), str (r"Pisana zelenjava z rizom"))] := by
  decide

/-- C2 counterexample: a day header followed by the two content lines
"Juha A" and "Glavna B ,C" does not produce the entry
["Juha A", "Glavna B, C"] claimed by the spec: the replacement collapses
" ," to "," without reinserting a space, giving "Glavna B,C". -/
theorem c2_counterexample :
    ¬ (clean_menu_text (joinNl [str (r"Ponedeljek, 2.6."), str (r"Juha A"),
        str (r"Glavna B ,C")]) =
      [(str (r"Ponedeljek, 2. 6."), str (r"Juha A"), str (r"Glavna B, C"))]) := by
  decide

/-- C2 (amended): flush policy of the Normalizer — a day with an empty
buffer produces no entry; a day with exactly one buffered line produces
[thatLine, ""]; the two content lines "Juha A" and "Glavna B ,C" produce
the entry ["Juha A", "Glavna B,C"], the stray " ," collapsed to ",". -/
theorem c2_flush_policy :
    (∀ menu d, process_buffer menu (some d) [] = menu) ∧
    (∀ menu d l, process_buffer menu (some d) [l] = insertMenu menu d (l, [])) ∧
    (∀ menu d, process_buffer menu (some d) [str (r"Juha A"), str (r"Glavna B ,C")] =
      insertMenu menu d (str (r"Juha A"), str (r"Glavna B,C"))) ∧
    clean_menu_text (joinNl [str (r"Ponedeljek, 2.6."), str (r"Torek, 3.6."),
        str (r"Juha")]) = [(str (r"Torek, 3. 6."), str (r"Juha"), [])] ∧
    clean_menu_text (joinNl [str (r"Ponedeljek, 2.6."), str (r"Juha A"),
        str (r"Glavna B ,C")]) =
      [(str (r"Ponedeljek, 2. 6."), str (r"Juha A"), str (r"Glavna B,C"))] := by
  refine ⟨fun menu d => rfl, fun menu d l => ?_, fun menu d => ?_, by decide, by decide⟩
  · simp [process_buffer, mkEntry]
  · have h : mkEntry [str (r"Juha A"), str (r"Glavna B ,C")] =
        (str (r"Juha A"), str (r"Glavna B,C")) := by decide
    simp [process_buffer, h]

/-- C3: the line "Ponedeljek, 2.6. nekaj" is recognized as starting a new
day labelled "Ponedeljek, 2. 6."; and a line on which `DAY_PATTERN` fails
(no weekday word, comma, day number, dot, month number prefix) is never
treated as a day header: it changes neither the current day nor the menu. -/
theorem c3_day_header :
    clean_menu_text (joinNl [str (r"Ponedeljek, 2.6. nekaj"), str (r"X")]) =
      [(str (r"Ponedeljek, 2. 6."), str (r"X"), [])] ∧
    ∀ line st, dayMatch line = none →
      (cleanStep st line).currentDay = st.currentDay ∧
        (cleanStep st line).menu = st.menu := by
  refine ⟨by decide, fun line st h => ?_⟩
  by_cases hj : isJunkLine line
  · simp [cleanStep, hj]
  · simp only [cleanStep, hj, Bool.false_eq_true, if_false, h]
    split <;> simp

/-- C3 witness: "Goveja obara" lacks the day-header prefix and does not
change the current day. -/
theorem c3_day_header_witness :
    (cleanStep initState (str (r"Goveja obara"))).currentDay = initState.currentDay :=
  (c3_day_header.2 (str (r"Goveja obara")) initState (by decide)).1

/-- C4: a line whose lowercased form contains one of the four junk
substrings, or that starts with "ALERGENI", is dropped: deleting it from
the line sequence leaves the resulting menu unchanged, so it contributes to
no day label and no day entry. -/
theorem c4_junk_filter (line : Str) (pre post : List Str)
    (h : (∃ j ∈ junkList, containsSub j (lowerStr line) = true) ∨
      listStartsWith (str (r"ALERGENI")) line = true) :
    cleanLines (pre ++ line :: post) = cleanLines (pre ++ post) := by
  have hj : isJunkLine line = true := by
    unfold isJunkLine
    rw [Bool.or_eq_true, List.any_eq_true]
    exact h.imp (fun ⟨j, hm, hc⟩ => ⟨j, hm, hc⟩) id
  unfold cleanLines
  rw [List.foldl_append, List.foldl_append, List.foldl_cons,
    cleanStep_of_junk _ _ hj]

/-- C4 witness: the line "VanderVeg" between a header and a dish is
dropped. -/
theorem c4_junk_filter_witness :
    cleanLines ([str (r"Ponedeljek, 2.6.")] ++ str (r"VanderVeg") :: [str (r"Juha")]) =
      cleanLines ([str (r"Ponedeljek, 2.6.")] ++ [str (r"Juha")]) :=
  c4_junk_filter (str (r"VanderVeg")) [str (r"Ponedeljek, 2.6.")] [str (r"Juha")]
    (Or.inl (by decide))

/-- C5: allergen-suffix stripping removes a trailing run of comma-separated
digit groups optionally preceded by whitespace, anchored at line end:
"Goveja obara 1,2,7" becomes "Goveja obara"; a line none of whose suffixes
matches the pattern is left unchanged; and whenever some suffix matches,
the line is truncated at the leftmost such position. -/
theorem c5_allergen :
    stripAllergen (str (r"Goveja obara 1,2,7")) = str (r"Goveja obara") ∧
    (∀ line : Str, (∀ i, i < line.length → isAllergenRun (line.drop i) = false) →
      stripAllergen line = line) ∧
    (∀ (line : Str) (i : Nat), isAllergenRun (line.drop i) = true →
      ∃ j, j ≤ i ∧ stripAllergen line = line.take j ∧
        isAllergenRun (line.drop j) = true) := by
  refine ⟨by decide, fun line h => ?_, fun line i hp => ?_⟩
  · have h2 : ∀ j, isAllergenRun (line.drop j) = false := by
      intro j
      by_cases hj : j < line.length
      · exact h j hj
      · rw [List.drop_eq_nil_of_le (by omega)]
        exact isAllergenRun_nil
    unfold stripAllergen
    rw [findAllergenFrom_eq_none line h2]
  · have hi : i < line.length := by
      by_contra hge
      rw [List.drop_eq_nil_of_le (by omega)] at hp
      exact absurd hp (by simp [isAllergenRun_nil])
    obtain ⟨j, hj1, hj2, hj3⟩ :=
      findAllergenFrom_le line (line.length + 1) 0 i (Nat.zero_le i) (by omega) hp
    refine ⟨j, hj1, ?_, hj3⟩
    unfold stripAllergen
    rw [hj2]

/-- C5 witness: "abc" has no suffix matching the allergen pattern and is
unchanged. -/
theorem c5_allergen_witness : stripAllergen (str (r"abc")) = str (r"abc") :=
  c5_allergen.2.1 (str (r"abc")) (by decide)

/-- C6 counterexample: in the input whose headers are Torek (no content),
Ponedeljek (content "Juha"), Torek again (content "Jed"), the label
"Torek, 3. 6." first appears on the first input line, before Ponedeljek,
yet the mapping iterates Ponedeljek first: iteration order is not the order
of first appearance in the input. -/
theorem c6_counterexample :
    clean_menu_text (joinNl [str (r"Torek, 3.6."), str (r"Ponedeljek, 2.6."),
        str (r"Juha"), str (r"Torek, 3.6."), str (r"Jed")]) =
      [(str (r"Ponedeljek, 2. 6."), str (r"Juha"), []),
        (str (r"Torek, 3. 6."), str (r"Jed"), [])] ∧
    firstAppearanceKeys (preprocess (joinNl [str (r"Torek, 3.6."),
        str (r"Ponedeljek, 2.6."), str (r"Juha"), str (r"Torek, 3.6."),
        str (r"Jed")])) =
      [str (r"Torek, 3. 6."), str (r"Ponedeljek, 2. 6.")] ∧
    (clean_menu_text (joinNl [str (r"Torek, 3.6."), str (r"Ponedeljek, 2.6."),
        str (r"Juha"), str (r"Torek, 3.6."), str (r"Jed")])).map Prod.fst ≠
      firstAppearanceKeys (preprocess (joinNl [str (r"Torek, 3.6."),
        str (r"Ponedeljek, 2.6."), str (r"Juha"), str (r"Torek, 3.6."),
        str (r"Jed")])) :=
  ⟨by decide, by decide, by decide⟩

/-- C6 (amended): for every raw OCR text the mapping contains at most one
entry per day label (duplicate-free key list), and its iteration order is
the order in which each label's entry was first inserted — the label order
realized by the flushes with a current day and a nonempty buffer — which
coincides with first appearance except when a label's earlier header
occurrence had no content. -/
theorem c6_keys (raw : Str) :
    ((clean_menu_text raw).map Prod.fst).Nodup ∧
    (clean_menu_text raw).map Prod.fst = shadowKeys (preprocess raw) := by
  obtain ⟨h1, h2, h3⟩ :=
    fold_sim (preprocess raw) initState ⟨[], none, false⟩ rfl rfl (by simp [initState])
  have hkeys : (clean_menu_text raw).map Prod.fst = shadowKeys (preprocess raw) := by
    unfold clean_menu_text cleanLines flushMenu shadowKeys
    rw [process_buffer_keys _ _ _
      ((preprocess raw).foldl shadowStep ⟨[], none, false⟩).hasBuf h3, h1, h2]
  refine ⟨?_, hkeys⟩
  rw [hkeys]
  exact flushKeys_nodup _ (fold_shadow_nodup _ _ List.nodup_nil)

/-- The checked flush never raises: its one indexing operation is guarded
by the nonempty-buffer test, as in the source. -/
theorem processBufferE_ok (m : Menu) (cur : Option Str) (buf : List Str) :
    processBufferE m cur buf = Except.ok (process_buffer m cur buf) := by
  unfold processBufferE process_buffer
  cases cur with
  | none => rfl
  | some d =>
      cases buf with
      | nil => rfl
      | cons b bs =>
          simp only [listIdx, mkEntry, List.cons_ne_nil, if_false, List.drop_zero,
            List.drop_one, List.length_cons, Nat.lt_add_one_iff]
          rfl

/-- The checked loop body never raises. -/
theorem cleanStepE_ok (st : NormState) (line : Str) :
    cleanStepE st line = Except.ok (cleanStep st line) := by
  unfold cleanStepE cleanStep
  by_cases hj : isJunkLine line
  · simp [hj]
  · simp only [hj, Bool.false_eq_true, if_false]
    cases hd : dayMatch line with
    | some g =>
        obtain ⟨w, d, m⟩ := g
        rw [processBufferE_ok]
        rfl
    | none =>
        by_cases hc : stripAllergen line = []
        · simp [hc]
        · simp [hc]

/-- The checked fold never raises. -/
theorem foldStepsE_ok : ∀ (lines : List Str) (st : NormState),
    foldStepsE st lines = Except.ok (lines.foldl cleanStep st)
  | [], _ => rfl
  | l :: ls, st => by
      show (do
        let st2 ← cleanStepE st l
        foldStepsE st2 ls) = _
      rw [cleanStepE_ok]
      exact foldStepsE_ok ls (cleanStep st l)

/-- C7: the Normalizer is total — the exception-aware model, in which every
operation of the source that can raise in Python is checked, returns the
mapping computed by the pure model on every string input, and never an
error; malformed or unmatched lines are dropped rather than causing
failure. -/
theorem c7_total (raw : Str) :
    cleanMenuTextE raw = Except.ok (clean_menu_text raw) := by
  unfold cleanMenuTextE clean_menu_text cleanLines flushMenu
  rw [foldStepsE_ok]
  exact processBufferE_ok _ _ _

/-- If the label phrase occurs nowhere in the text, the search fails. -/
theorem searchPrice_none_of_not_contains (ph : Str) :
    ∀ text : Str, containsSub ph text = false → searchPrice ph text = none
  | [], h => by
      unfold containsSub at h
      unfold searchPrice priceMatchAt
      simp [h]
  | c :: rest, h => by
      unfold containsSub at h
      rw [Bool.or_eq_false_iff] at h
      unfold searchPrice
      rw [show priceMatchAt ph (c :: rest) = none from by
        unfold priceMatchAt
        simp [h.1]]
      exact searchPrice_none_of_not_contains ph rest h.2

/-- A failed search means the pattern matches at no position. -/
theorem searchPrice_none_imp (ph : Str) :
    ∀ text : Str, searchPrice ph text = none →
      ∀ i, priceMatchAt ph (text.drop i) = none
  | [], h, i => by
      rw [List.drop_nil]
      unfold searchPrice at h
      exact h
  | c :: rest, h, i => by
      have hsplit : priceMatchAt ph (c :: rest) = none ∧
          searchPrice ph rest = none := by
        unfold searchPrice at h
        cases hm : priceMatchAt ph (c :: rest) with
        | some g => rw [hm] at h; exact absurd h (by simp)
        | none => rw [hm] at h; exact ⟨rfl, h⟩
      cases i with
      | zero => exact hsplit.1
      | succ j =>
          rw [List.drop_succ_cons]
          exact searchPrice_none_imp ph rest hsplit.2 j

/-- A matched amount group has the currency shape. -/
theorem amountAt_shape (s g : Str) (h : amountAt s = some g) : priceShape g := by
  unfold amountAt at h
  split at h
  · simp at h
  next h1 =>
    split at h
    next c r2 heq =>
      split at h
      next h2 =>
        split at h
        · simp at h
        next h3 =>
          split at h
          next e rest heq2 =>
            split at h
            next h4 =>
              refine ⟨s.takeWhile Char.isDigit, c, r2.takeWhile Char.isDigit,
                h1, takeWhile_all _ _, h2, h3, takeWhile_all _ _, ?_⟩
              exact (Option.some.inj h).symm
            · simp at h
          · simp at h
      · simp at h
    · simp at h

/-- A price-pattern match yields an amount of the currency shape. -/
theorem priceMatchAt_shape (ph s g : Str) (h : priceMatchAt ph s = some g) :
    priceShape g := by
  unfold priceMatchAt at h
  split at h
  · exact amountAt_shape _ _ h
  · simp at h

/-- A successful search yields an amount of the currency shape. -/
theorem searchPrice_shape (ph : Str) :
    ∀ text g : Str, searchPrice ph text = some g → priceShape g
  | [], g, h => by
      unfold searchPrice at h
      exact priceMatchAt_shape ph [] g h
  | c :: rest, g, h => by
      unfold searchPrice at h
      cases hm : priceMatchAt ph (c :: rest) with
      | some g2 =>
          rw [hm] at h
          exact (Option.some.inj h) ▸ priceMatchAt_shape ph (c :: rest) g2 hm
      | none =>
          rw [hm] at h
          exact searchPrice_shape ph rest g h

/-- C8: the searching step of the Price Extractor over the homepage text —
each returned value is absent whenever its label phrase does not occur in
the text (in particular both are absent when the text contains neither
phrase); whenever the phrase followed by a currency amount is present, the
value is present; and any returned value is a matched currency-amount
string (digits, comma-or-dot separator, digits, euro sign).  The searching
step is a total function: it never raises. -/
theorem c8_prices (text : Str) :
    (containsSub soupPhrase text = false → (get_prices_from_text text).1 = none) ∧
    (containsSub mainPhrase text = false → (get_prices_from_text text).2 = none) ∧
    (∀ g, (get_prices_from_text text).1 = some g → priceShape g) ∧
    (∀ g, (get_prices_from_text text).2 = some g → priceShape g) ∧
    ((∃ i, priceMatchAt soupPhrase (text.drop i) ≠ none) →
      (get_prices_from_text text).1 ≠ none) ∧
    ((∃ i, priceMatchAt mainPhrase (text.drop i) ≠ none) →
      (get_prices_from_text text).2 ≠ none) :=
  ⟨fun h => searchPrice_none_of_not_contains _ _ h,
   fun h => searchPrice_none_of_not_contains _ _ h,
   fun _ h => searchPrice_shape _ _ _ h,
   fun _ h => searchPrice_shape _ _ _ h,
   fun ⟨i, hi⟩ hnone => hi (searchPrice_none_imp _ _ hnone i),
   fun ⟨i, hi⟩ hnone => hi (searchPrice_none_imp _ _ hnone i)⟩

/-- C8 witness: a text with neither phrase yields two absent prices, and a
text with the soup phrase and an amount yields a present soup price. -/
theorem c8_prices_witness :
    (get_prices_from_text (str (r"cenik"))).1 = none ∧
    (get_prices_from_text (str (r"cenik"))).2 = none ∧
    (get_prices_from_text (str (r"Dnevna juha: 4,50€"))).1 ≠ none :=
  ⟨(c8_prices _).1 (by decide), (c8_prices _).2.1 (by decide),
   (c8_prices _).2.2.2.2.1 ⟨0, by decide⟩⟩

/-- C9: the Locator selection loop equals its declarative reading — the
first source (in document order, a missing attribute defaulting to the
empty string) that case-insensitively contains "meni" and ends in ".jpg" or
".jpeg" is selected and resolved, and a not-found error is raised when no
image qualifies; resolution returns an absolute source unchanged, joins a
slash-initial path directly to the homepage origin, and joins a bare
relative path with an inserted slash. -/
theorem c9_locator :
    (∀ imgs, get_latest_menu_image_url imgs = menuImageUrlSpec imgs) ∧
    (∀ src : Str, listStartsWith (str (r"http")) src = true →
      resolveUrl src = src) ∧
    (∀ src : Str, listStartsWith (str (r"http")) src = false →
      listStartsWith (str (r"/")) src = true →
      resolveUrl src = homepageUrl ++ src) ∧
    (∀ src : Str, listStartsWith (str (r"http")) src = false →
      listStartsWith (str (r"/")) src = false →
      resolveUrl src = homepageUrl ++ '/' :: src) := by
  refine ⟨?_, fun src h => by simp [resolveUrl, h],
    fun src h1 h2 => by simp [resolveUrl, h1, h2],
    fun src h1 h2 => by simp [resolveUrl, h1, h2]⟩
  intro imgs
  induction imgs with
  | nil => rfl
  | cons img rest ih =>
      show (if menuImgQualifies (img.getD []) then
          Except.ok (resolveUrl (img.getD []))
        else get_latest_menu_image_url rest) = _
      by_cases hq : menuImgQualifies (img.getD []) = true
      · rw [if_pos hq]
        unfold menuImageUrlSpec
        rw [List.map_cons, List.find?_cons_of_pos _ hq]
      · rw [if_neg hq, ih]
        unfold menuImageUrlSpec
        rw [List.map_cons, List.find?_cons_of_neg _ (by simpa using hq)]

/-- C9 witness: a bare relative path is resolved with an inserted slash. -/
theorem c9_locator_witness :
    resolveUrl (str (r"meni.jpg")) = homepageUrl ++ '/' :: str (r"meni.jpg") :=
  c9_locator.2.2.2 (str (r"meni.jpg")) (by decide) (by decide)

/-- With an empty menu and no current day, the final result does not depend
on what the buffer holds: any flush before the first day header discards
it. -/
theorem fold_buffer_indep : ∀ (rest b1 b2 : List Str),
    flushMenu (rest.foldl cleanStep ⟨[], none, b1⟩) =
      flushMenu (rest.foldl cleanStep ⟨[], none, b2⟩)
  | [], _, _ => rfl
  | l :: ls, b1, b2 => by
      show flushMenu (ls.foldl cleanStep (cleanStep ⟨[], none, b1⟩ l)) =
        flushMenu (ls.foldl cleanStep (cleanStep ⟨[], none, b2⟩ l))
      by_cases hj : isJunkLine l
      · rw [cleanStep_of_junk _ _ hj, cleanStep_of_junk _ _ hj]
        exact fold_buffer_indep ls b1 b2
      · cases hd : dayMatch l with
        | some g =>
            obtain ⟨w, d, m⟩ := g
            have e1 : cleanStep ⟨[], none, b1⟩ l = ⟨[], some (dayLabel w d m), []⟩ := by
              simp [cleanStep, hj, hd, process_buffer]
            have e2 : cleanStep ⟨[], none, b2⟩ l = ⟨[], some (dayLabel w d m), []⟩ := by
              simp [cleanStep, hj, hd, process_buffer]
            rw [e1, e2]
        | none =>
            by_cases hc : stripAllergen l = []
            · have e1 : cleanStep ⟨[], none, b1⟩ l = ⟨[], none, b1⟩ := by
                simp [cleanStep, hj, hd, hc]
              have e2 : cleanStep ⟨[], none, b2⟩ l = ⟨[], none, b2⟩ := by
                simp [cleanStep, hj, hd, hc]
              rw [e1, e2]
              exact fold_buffer_indep ls b1 b2
            · have e1 : cleanStep ⟨[], none, b1⟩ l =
                  ⟨[], none, b1 ++ [stripAllergen l]⟩ := by
                simp [cleanStep, hj, hd, hc]
              have e2 : cleanStep ⟨[], none, b2⟩ l =
                  ⟨[], none, b2 ++ [stripAllergen l]⟩ := by
                simp [cleanStep, hj, hd, hc]
              rw [e1, e2]
              exact fold_buffer_indep ls (b1 ++ [stripAllergen l]) (b2 ++ [stripAllergen l])

/-- Folding header-free lines keeps the menu empty and the day unset; only
the buffer can change. -/
theorem fold_pre_state : ∀ (pre : List Str) (b0 : List Str),
    (∀ l ∈ pre, dayMatch l = none) →
    ∃ b, pre.foldl cleanStep ⟨[], none, b0⟩ = ⟨[], none, b⟩
  | [], b0, _ => ⟨b0, rfl⟩
  | l :: ls, b0, h => by
      have hl : dayMatch l = none := h l (List.mem_cons_self l ls)
      have hrest : ∀ x ∈ ls, dayMatch x = none :=
        fun x hx => h x (List.mem_cons_of_mem l hx)
      show ∃ b, ls.foldl cleanStep (cleanStep ⟨[], none, b0⟩ l) = _
      by_cases hj : isJunkLine l
      · rw [cleanStep_of_junk _ _ hj]
        exact fold_pre_state ls b0 hrest
      · by_cases hc : stripAllergen l = []
        · rw [show cleanStep ⟨[], none, b0⟩ l = ⟨[], none, b0⟩ from by
            simp [cleanStep, hj, hl, hc]]
          exact fold_pre_state ls b0 hrest
        · rw [show cleanStep ⟨[], none, b0⟩ l = ⟨[], none, b0 ++ [stripAllergen l]⟩ from by
            simp [cleanStep, hj, hl, hc]]
          exact fold_pre_state ls (b0 ++ [stripAllergen l]) hrest

/-- C10 (implicit): content lines appearing before any day header are
discarded — they are buffered, but flushing requires a current day label,
so prefixing any header-free lines to the input leaves the resulting menu
unchanged, and they never leak into the first day's entry. -/
theorem c10_preheader (pre rest : List Str)
    (h : ∀ l ∈ pre, dayMatch l = none) :
    cleanLines (pre ++ rest) = cleanLines rest := by
  unfold cleanLines
  rw [List.foldl_append]
  obtain ⟨b, hb⟩ := fold_pre_state pre [] h
  have hb2 : pre.foldl cleanStep initState = (⟨[], none, b⟩ : NormState) := hb
  rw [hb2]
  exact fold_buffer_indep rest b []

/-- C10 witness: a stray dish line before the first header does not change
the output. -/
theorem c10_preheader_witness :
    cleanLines ([str (r"Goveja obara")] ++ [str (r"Ponedeljek, 2.6."), str (r"Juha")]) =
      cleanLines [str (r"Ponedeljek, 2.6."), str (r"Juha")] :=
  c10_preheader [str (r"Goveja obara")] [str (r"Ponedeljek, 2.6."), str (r"Juha")]
    (by decide)

end Vveg
